import Mathlib

/-!
Verification of the graph-scheduling and variable-propagation engine of the
Super_Agent repository (agentLoop/contextManager.py and agentLoop/flow.py),
via a shallow embedding of its data model and operations.

Python values flowing through the engine (worker outputs, execution results,
variable-store entries) are JSON-like: strings, integers, booleans, None,
lists and dicts.  They are modelled by the mutual inductive family `J` /
`JList` / `JDict` below; `J.null` models Python `None`.  Dicts are modelled
as insertion-ordered key/value sequences, which matches Python dict
iteration order (the only order the embedded code observes).
-/

mutual

inductive J where
  | str : String → J
  | num : Int → J
  | bool : Bool → J
  | null : J
  | list : JList → J
  | dict : JDict → J

inductive JList where
  | nil : JList
  | cons : J → JList → JList

inductive JDict where
  | nil : JDict
  | cons : String → J → JDict → JDict

end

/-- Python truthiness of a JSON-like value: empty strings, zero, `False`,
`None`, empty lists and empty dicts are falsy, everything else truthy. -/
def truthy : J → Bool
  | .str s => !(s == "")
  | .num n => !(n == 0)
  | .bool b => b
  | .null => false
  | .list .nil => false
  | .list (.cons _ _) => true
  | .dict .nil => false
  | .dict (.cons _ _ _) => true

def J.isDict : J → Bool
  | .dict _ => true
  | _ => false

/-- Dict lookup (`d[k]` / `k in d`), first match in insertion order.
Python dicts have unique keys; on duplicate-key association sequences this
returns the first binding, which is the one Python would hold. -/
def jdLookup : JDict → String → Option J
  | .nil, _ => none
  | .cons k v rest, key => if k == key then some v else jdLookup rest key

/-- Python `d.get(k, default)`. -/
def jdGetD (d : JDict) (key : String) (dflt : J) : J :=
  (jdLookup d key).getD dflt

/-- Python `k in d` for a dict. -/
def jdMem (d : JDict) (key : String) : Bool :=
  (jdLookup d key).isSome

/-- Python `d[k] = v`: replace the value in place if the key exists,
else append the binding at the end (insertion order). -/
def jdSet : JDict → String → J → JDict
  | .nil, key, v => .cons key v .nil
  | .cons k w rest, key, v =>
    if k == key then .cons k v rest else .cons k w (jdSet rest key v)

def JDict.toList : JDict → List (String × J)
  | .nil => []
  | .cons k v rest => (k, v) :: rest.toList

/-- Python `str(value)` conversion applied by the extraction code to values
that are not `(str, int, float, bool, list, dict)`.  In the `J` model the
only such value is `None`, and `str(None) = "None"`. -/
def toStd : J → J
  | .null => .str "None"
  | v => v

/-- `needle` is an initial segment of `hay` (character lists). -/
def listLead : List Char → List Char → Bool
  | [], _ => true
  | _ :: _, [] => false
  | a :: as, b :: bs => a == b && listLead as bs

/-- Python `needle in hay` for strings (substring containment). -/
def strHas (hay needle : String) : Bool :=
  go needle.toList hay.toList
where
  go (n : List Char) : List Char → Bool
    | [] => n.isEmpty
    | h@(_ :: t) => listLead n h || go n t

/-- Python `s.startswith(pre)`. -/
def strStarts (s pre : String) : Bool :=
  listLead pre.toList s.toList

/-- Python `s.endswith(suf)`. -/
def strEnds (s suf : String) : Bool :=
  listLead suf.toList.reverse s.toList.reverse

/-!
### Deep search

`deep_search` / `deep_search_output` in `ExecutionContextManager.mark_done`
(contextManager.py, strategies 2 and 4): depth-first search of a nested
dict/list tree for a key, returning the first match.  The Python helper
returns `None` both when nothing is found and when the found value is
`None` (the caller tests `is not None`), which `J.null` models exactly.
Note the Python `return value` on a key match aborts the whole call even
when `value` is `None`; the model mirrors this: a `null` hit at a key makes
that dict entry contribute nothing and the search continues with the
remaining entries of the same dict.
-/

mutual

def deepSearch : J → String → J
  | .dict d, target => deepSearchDict d target
  | .list l, target => deepSearchList l target
  | _, _ => .null

def deepSearchDict : JDict → String → J
  | .nil, _ => .null
  | .cons k v rest, target =>
    if k == target then v else
      match deepSearch v target with
      | .null => deepSearchDict rest target
      | r => r

def deepSearchList : JList → String → J
  | .nil, _ => .null
  | .cons x rest, target =>
    match deepSearch x target with
    | .null => deepSearchList rest target
    | r => r

end

/-!
### The shared variable store (`globals_schema`)

A key/value mapping; writes shadow earlier bindings (Python dict update).
The embedded code never iterates the store, so shadowing by prepending is
observationally equivalent to in-place update.
-/

def Store := List (String × J)

def stLookup : Store → String → Option J
  | [], _ => none
  | (k, v) :: rest, key => if k == key then some v else stLookup rest key

def setVar (gs : Store) (key : String) (v : J) : Store :=
  (key, v) :: gs

/-!
### Output extraction (`ExecutionContextManager.mark_done`, lines 345-587)

For each declared write key, an ordered chain of strategies determines the
value bound into `globals_schema`.  The chain is embedded stage by stage;
each stage returns `Except Unit (Option J)`:
* `.error ()`  — the Python code raises an uncaught exception at this point
  (e.g. `AttributeError` from `.keys()`/`.get` on a non-dict, `TypeError`
  from indexing a non-dict); `mark_done` then aborts without completing;
* `.ok none`  — the stage did not produce a value (`extracted` stays False);
* `.ok (some v)` — the stage bound `v`.

`json.loads` (used to unwrap "content list" web-search results) is an
external pure function; it is a parameter `jl : String → Option J`, where
`none` models `json.JSONDecodeError` (which the source catches).
-/

/-- The "content list" unwrapping inside strategy 1: if the value is a dict
whose `content` field is a non-empty list whose first element has a `text`
field that is a bracketed JSON array, parse and use the array; a parse
failure is caught and the wrapper itself is bound; a non-dict first element
or a non-string `text` raises (`AttributeError`, uncaught). -/
def wrapperExtract (jl : String → Option J) (v : J) : Except Unit J :=
  match v with
  | .dict vd =>
    match jdLookup vd "content" with
    | some (.list c) =>
      match c with
      | .nil => .ok (toStd v)
      | .cons e _ =>
        match e with
        | .dict ed =>
          match jdGetD ed "text" (.str "") with
          | .str t =>
            if strStarts t "[" && strEnds t "]" then
              match jl t with
              | some parsed => .ok parsed
              | none => .ok (toStd v)
            else .ok (toStd v)
          | _ => .error ()
        | _ => .error ()
    | _ => .ok (toStd v)
  | _ => .ok (toStd v)

/-- Python `execution_result.get("status") == "success"`. -/
def statusSuccess (erd : JDict) : Bool :=
  match jdLookup erd "status" with
  | some (.str s) => s == "success"
  | _ => false

/-- Strategies 1 and 2: extraction from the code-execution result.
Entered only when `execution_result` is truthy with `status == "success"`.
`result_data = execution_result.get("result", {})`, falling back to the
whole `execution_result` when falsy; a non-dict `result_data` raises at the
debug print `list(result_data.keys())`.  Then a direct key match (with
content-list unwrapping), else a deep search. -/
def stage12 (jl : String → Option J) (er : J) (wk : String) :
    Except Unit (Option J) :=
  if truthy er then
    match er with
    | .dict erd =>
      if statusSuccess erd then
        match jdGetD erd "result" (.dict .nil) with
        | .dict rdd0 =>
          let rdd := if truthy (.dict rdd0) then rdd0 else erd
          match jdLookup rdd wk with
          | some v => Except.map some (wrapperExtract jl v)
          | none =>
            match deepSearch (.dict rdd) wk with
            | .null => .ok none
            | f => .ok (some (toStd f))
        | _ => .error ()
      else .ok none
    | _ => .error ()
  else .ok none

/-- Strategy 3: extraction from the (truthy dict) raw output: a direct
top-level key match; `elif` the output has a dict `execution_result` field,
a key match inside it (and, per the source's `elif`/`else` chain, **no**
deep search in that case); else a deep search over the whole output. -/
def stage3 (output : J) (wk : String) : Option J :=
  if truthy output then
    match output with
    | .dict od =>
      match jdLookup od wk with
      | some v => some (toStd v)
      | none =>
        match jdLookup od "execution_result" with
        | some (.dict e2) =>
          match jdLookup e2 wk with
          | some v => some (toStd v)
          | none => none
        | _ =>
          match deepSearch output wk with
          | .null => none
          | f => some (toStd f)
    | _ => none
  else none

/-- The ordered FormatterAgent name patterns (`write_key.replace('_T','_T')`
in the source is the identity). -/
def formatterPatterns (wk sid : String) : List String :=
  ["formatted_" ++ wk, "formatted_report_" ++ wk, "formatted_html_" ++ wk,
   "formatted_output_" ++ wk, "formatted_" ++ wk,
   "formatted_report_" ++ sid, "formatted_html_" ++ sid,
   "formatted_output_" ++ sid, "formatted_" ++ sid,
   "formatted_report", "formatted_html", "formatted_output", "formatted"]

def findPattern (od : JDict) : List String → Option J
  | [] => none
  | p :: rest =>
    match jdLookup od p with
    | some v => if truthy v then some v else findPattern od rest
    | none => findPattern od rest

/-- First entry whose key contains `formatted` (case-insensitive) with a
truthy value. -/
def findFormattedKey : JDict → Option J
  | .nil => none
  | .cons k v rest =>
    if strHas (String.toLower k) "formatted" && truthy v then some v
    else findFormattedKey rest

/-- First entry with a truthy value whose key contains the step id or the
write key (the source's `search_terms` are `[step_id, wk, wk]`). -/
def findTermKey (sid wk : String) : JDict → Option J
  | .nil => none
  | .cons k v rest =>
    if truthy v && (strHas k sid || strHas k wk) then some v
    else findTermKey sid wk rest

/-- Strategy 4 (FormatterAgent only): the fixed pattern list, then the
`formatted`-substring fallback, then the step-id/write-key fallback.  A
truthy non-dict output raises (`TypeError` on indexing or `AttributeError`
on `.items()`) on every path. -/
def stage4 (agent sid : String) (output : J) (wk : String) :
    Except Unit (Option J) :=
  if agent == "FormatterAgent" && truthy output then
    match output with
    | .dict od =>
      match findPattern od (formatterPatterns wk sid) with
      | some v => .ok (some v)
      | none =>
        match findFormattedKey od with
        | some v => .ok (some v)
        | none => .ok (findTermKey sid wk od)
    | _ => .error ()
  else .ok none

/-- Strategy 5, first half: when the execution result is truthy with a
truthy `result`, bind the value of the *first key* of the result dict
(whatever that value is — empty values included), unless the first key is
the empty string (falsy in `if first_key:`).  The debug print
`list(execution_result.get('result', {}).keys())` raises on a truthy
execution result whose `result` field is not a dict. -/
def stage5er (er : J) : Except Unit (Option J) :=
  if truthy er then
    match er with
    | .dict erd =>
      match jdGetD erd "result" (.dict .nil) with
      | .dict rdd0 =>
        if truthy ((jdLookup erd "result").getD .null) then
          if truthy (.dict rdd0) then
            match rdd0 with
            | .nil => .ok none
            | .cons k v _ => if k == "" then .ok none else .ok (some (toStd v))
          else .ok none
        else .ok none
      | _ => .error ()
    | _ => .error ()
  else .ok none

/-- First truthy value of a dict, in insertion order. -/
def firstTruthy : JDict → Option J
  | .nil => none
  | .cons _ v rest => if truthy v then some v else firstTruthy rest

/-- Strategy 5, second half: the first truthy top-level value of the (truthy
dict) raw output.  (The source's `elif value: str(value)` arm is unreachable
in the `J` model: the only non-standard value, `None`, is falsy.) -/
def stage5out (output : J) : Option J :=
  if truthy output then
    match output with
    | .dict od => firstTruthy od
    | _ => none
  else none

/-- The full per-key extraction chain of `mark_done`: the value bound into
`globals_schema[wk]`, first successful stage wins, empty list as the
absolute last resort (with a logged warning). -/
def extractKey (jl : String → Option J) (agent sid : String) (er output : J)
    (wk : String) : Except Unit J :=
  match stage12 jl er wk with
  | .error e => .error e
  | .ok (some v) => .ok v
  | .ok none =>
    match stage3 output wk with
    | some v => .ok v
    | none =>
      match stage4 agent sid output wk with
      | .error e => .error e
      | .ok (some v) => .ok v
      | .ok none =>
        match stage5er er with
        | .error e => .error e
        | .ok (some v) => .ok v
        | .ok none =>
          match stage5out output with
          | some v => .ok v
          | none => .ok (.list .nil)

/-- Extraction of one write key followed by the store update
`globals_schema[write_key] = value`. -/
def extract_and_store (jl : String → Option J) (agent sid : String)
    (er output : J) (wk : String) (gs : Store) : Except Unit Store :=
  match extractKey jl agent sid er output wk with
  | .error e => .error e
  | .ok v => .ok (setVar gs wk v)

/-- The `for write_key in writes:` loop of `mark_done`. -/
def extract_writes (jl : String → Option J) (agent sid : String)
    (er output : J) : List String → Store → Except Unit Store
  | [], gs => .ok gs
  | wk :: rest, gs =>
    match extract_and_store jl agent sid er output wk gs with
    | .error e => .error e
    | .ok gs2 => extract_writes jl agent sid er output rest gs2

/-!
### Graph construction and scheduling state
(`ExecutionContextManager.__init__`, `get_ready_steps`, `mark_running`,
`mark_done`, `mark_failed`, `all_done`; driver loop in `AgentLoop4`)

`__init__` builds a NetworkX `DiGraph`: a synthetic `"ROOT"` node with
`status='completed'`, one node per plan node with `status='pending'`, and
one edge per plan edge.  NetworkX `add_edge` silently creates any endpoint
that is not yet a node (with no attributes at all); `__init__` performs no
cycle or membership validation.  Only node ids and edges matter for
scheduling, so a plan is modelled by its node-id list and edge list.
-/

inductive Status where
  | pending
  | running
  | completed
  | failed
deriving DecidableEq

structure Plan where
  nodes : List String
  edges : List (String × String)

structure PlanGraph where
  nodes : List String
  edges : List (String × String)

/-- NetworkX `add_node`: appends the node if new, else keeps the list. -/
def addNodeOnce (ns : List String) (n : String) : List String :=
  if n ∈ ns then ns else ns ++ [n]

/-- `ExecutionContextManager.__init__`: add `"ROOT"`, add every declared
plan node, then add every edge — `add_edge` silently appending any missing
endpoint (source first, then target).  The constructor is total: no
validation of any kind is performed. -/
def init_plan_graph (p : Plan) : PlanGraph :=
  { nodes :=
      p.edges.foldl (fun acc e => addNodeOnce (addNodeOnce acc e.1) e.2)
        (p.nodes.foldl addNodeOnce ["ROOT"]),
    edges := p.edges }

/-- Per-node statuses.  Python reads them with
`node_data.get('status', 'pending')`, so a missing entry is `pending`;
at construction `"ROOT"` is `completed` and declared nodes are explicitly
`pending` (the same observable assignment). -/
def StatusMap := List (String × Status)

def statusOf (st : StatusMap) (n : String) : Status :=
  match st with
  | [] => .pending
  | (k, s) :: rest => if k == n then s else statusOf rest n

def setStatus (st : StatusMap) (n : String) (s : Status) : StatusMap :=
  (n, s) :: st

def initStatus : StatusMap := [("ROOT", Status.completed)]

/-- Python `status in ['completed', 'failed', 'running']` in
`get_ready_steps`. -/
def statusBlocked : Status → Bool
  | .completed => true
  | .failed => true
  | .running => true
  | .pending => false

/-- NetworkX `predecessors(n)`: sources of the edges into `n`. -/
def predecessors (g : PlanGraph) (n : String) : List String :=
  (g.edges.filter (fun e => e.2 == n)).map (fun e => e.1)

/-- `ExecutionContextManager.get_ready_steps`: every node except `"ROOT"`
whose status is not completed/failed/running and whose every predecessor is
completed. -/
def get_ready_steps (g : PlanGraph) (st : StatusMap) : List String :=
  g.nodes.filter (fun n =>
    !(n == "ROOT") && !statusBlocked (statusOf st n) &&
      (predecessors g n).all (fun p => statusOf st p == Status.completed))

/-- `ExecutionContextManager.all_done`: every node (ROOT included) is
completed or failed. -/
def all_done (g : PlanGraph) (st : StatusMap) : Bool :=
  g.nodes.all (fun n =>
    match statusOf st n with
    | .completed => true
    | .failed => true
    | _ => false)

/-- `ExecutionContextManager.get_inputs`: keep, in order, the requested read
keys that are present in `globals_schema`; missing keys are merely logged
and silently omitted. -/
def get_inputs (gs : Store) : List String → Store
  | [] => []
  | k :: rest =>
    match stLookup gs k with
    | some v => (k, v) :: get_inputs gs rest
    | none => get_inputs gs rest

/-!
### The scheduler transition system (`AgentLoop4._execute_dag`)

The driver repeatedly takes the ready set, marks each ready node running,
executes it, and applies `mark_done` (status := completed) on success or
`mark_failed` (status := failed) on an exception/failure result.  The
status-level protocol is the small-step relation below: `mark_running` is
invoked only on nodes of the current ready set, and `mark_done` /
`mark_failed` only on nodes the driver just marked running.
-/

inductive SchedStep (g : PlanGraph) : StatusMap → StatusMap → Prop where
  | runStep (st : StatusMap) (n : String) (h : n ∈ get_ready_steps g st) :
      SchedStep g st (setStatus st n .running)
  | doneStep (st : StatusMap) (n : String) (h : statusOf st n = .running) :
      SchedStep g st (setStatus st n .completed)
  | failStep (st : StatusMap) (n : String) (h : statusOf st n = .running) :
      SchedStep g st (setStatus st n .failed)

def ReachableState (g : PlanGraph) (st : StatusMap) : Prop :=
  Relation.ReflTransGen (SchedStep g) initStatus st

/-- `d` is reachable from `f` along one or more graph edges (`d` depends,
directly or transitively, on `f`). -/
def Reaches (g : PlanGraph) : String → String → Prop :=
  Relation.TransGen (fun a b => (a, b) ∈ g.edges)

/-- A plan is well formed when every edge references declared nodes and no
declared node shadows the synthetic root (§3 of the design: construction is
expected to receive such plans; `all_done` in the source raises `KeyError`
on implicitly-created nodes, so claims about it are settled on this
domain). -/
def WellFormedPlan (p : Plan) : Prop :=
  (∀ e ∈ p.edges, e.1 ∈ p.nodes ∧ e.2 ∈ p.nodes) ∧ "ROOT" ∉ p.nodes

/-!
### `mark_done` (contextManager.py lines 302-605)

The pipeline: cost bookkeeping (no observable effect here), the user
interaction check, the code execution check, FormatterAgent file saving
(external I/O wrapped in try/except, no effect on the store or status),
the per-write-key extraction, and finally `status = 'completed'`.

External collaborators are parameters:
* `interact` — `_handle_user_interaction_rich`; `.error ()` models the
  collaborator raising (the source catches, logs and continues);
* `codeStage` — `_auto_execute_code` followed by `_merge_execution_results`
  for outputs that carry executable code, returning the execution result
  and the merged output; both live behind `run_user_code`
  (`action/executor.py`, an external module).  Every theorem below is
  settled on outputs without executable code, where this parameter is
  never consulted.
-/

/-- `ExecutionContextManager._has_executable_code`. -/
def anyKeyCode : JDict → Bool
  | .nil => false
  | .cons k _ rest => strStarts k "CODE_" || anyKeyCode rest

def has_executable_code (output : J) : Bool :=
  match output with
  | .dict od =>
    jdMem od "code_variants" || anyKeyCode od ||
      (jdMem od "tool_calls" || jdMem od "schedule_tool" ||
       jdMem od "browser_commands" || jdMem od "python_code")
  | _ => false

/-- `ExecutionContextManager._is_clarification_request`. -/
def is_clarification_request (agent : String) (output : J) : Bool :=
  agent == "ClarificationAgent" &&
    (match output with
     | .dict od => jdMem od "clarificationMessage"
     | _ => false)

/-- The user-interaction block of `mark_done`: on success bind the response
under `writes_to` (default `"user_response"`) and annotate the output; any
exception inside the `try` — including the interaction collaborator being
unavailable — is caught, logged, and leaves the store and output unchanged.
(A non-string `writes_to` value would raise `TypeError` inside the same
`try`, hence also leaves both unchanged; non-string hashable keys are out
of the modelled domain.) -/
def handle_clarification (interact : Except Unit String) (agent : String)
    (gs : Store) (output : J) : Store × J :=
  if is_clarification_request agent output then
    match interact with
    | .ok resp =>
      match output with
      | .dict od =>
        match jdGetD od "writes_to" (.str "user_response") with
        | .str wt =>
          (setVar gs wt (.str resp),
           .dict (jdSet (jdSet od "user_response" (.str resp))
                    "interaction_completed" (.bool true)))
        | _ => (gs, output)
      | _ => (gs, output)
    | .error _ => (gs, output)
  else (gs, output)

/-- `ExecutionContextManager.mark_done`: interaction handling, then code
execution (only when the output carries executable code), then per-key
extraction, then `status = 'completed'`.  `.error` propagates an uncaught
extraction exception (the Python call would raise and never set a status). -/
def mark_done (interact : Except Unit String) (codeStage : J → J × J)
    (jl : String → Option J) (agent sid : String) (output : J)
    (writes : List String) (gs : Store) : Except Unit (Store × Status) :=
  let clar := handle_clarification interact agent gs output
  let exec := if has_executable_code clar.2 then codeStage clar.2
              else (J.null, clar.2)
  match extract_writes jl agent sid exec.1 exec.2 writes clar.1 with
  | .error e => .error e
  | .ok gs2 => .ok (gs2, Status.completed)

/-!
### The self-iteration loop (`AgentLoop4._execute_step`, lines 204-271)

The worker (`AgentRunner.run_agent`) is external: a function of the
iteration number, the current instruction and the current iteration
context, returning a success flag and an output.  The Python `while
current_iteration <= max_iterations` loop is embedded with the remaining
iteration budget `fuel = max_iterations + 1 - current_iteration` as the
structural argument; `fuel = 0` is the `while` condition failing, and
`fuel = 1` at a continuation request is the `current_iteration >
max_iterations` safety break (logged, not an error).  The second component
counts worker invocations.
-/

structure AgentResult where
  success : Bool
  output : J

def run_iterations (worker : Nat → J → J → AgentResult) :
    Nat → Nat → J → J → J → Nat → J × Nat
  | _, 0, out, _, _, count => (out, count)
  | cur, fuel + 1, out, instr, ctx, count =>
    let res := worker cur instr ctx
    if res.success then
      match res.output with
      | .dict od =>
        if truthy res.output then
          if truthy (jdGetD od "call_self" (.bool false)) then
            if fuel = 0 then (res.output, count + 1)
            else
              run_iterations worker (cur + 1) fuel res.output
                (jdGetD od "next_instruction" instr)
                (jdGetD od "iteration_context" ctx) (count + 1)
          else (res.output, count + 1)
        else
          if fuel = 0 then (res.output, count + 1)
          else run_iterations worker (cur + 1) fuel res.output instr ctx
                 (count + 1)
      | _ =>
        if fuel = 0 then (res.output, count + 1)
        else run_iterations worker (cur + 1) fuel res.output instr ctx
               (count + 1)
    else (out, count + 1)

/-- `AgentLoop4._execute_step`: run the iteration loop starting at
iteration 1 with no previous output/instruction/context, then return —
unconditionally — `{"success": True, "output": current_output}`.  The
second component is the number of worker invocations performed. -/
def execute_step (worker : Nat → J → J → AgentResult)
    (max_iterations : Nat) : AgentResult × Nat :=
  let r := run_iterations worker 1 max_iterations J.null J.null J.null 0
  ({ success := true, output := r.1 }, r.2)

/-!
## Theorems
-/

lemma statusBlocked_eq_false {s : Status} :
    statusBlocked s = false ↔ s ≠ .completed ∧ s ≠ .failed ∧ s ≠ .running := by
  cases s <;> simp [statusBlocked]

lemma mem_predecessors {g : PlanGraph} {p n : String} :
    p ∈ predecessors g n ↔ (p, n) ∈ g.edges := by
  unfold predecessors
  simp only [List.mem_map, List.mem_filter, beq_iff_eq]
  constructor
  · rintro ⟨e, ⟨he, h2⟩, h1⟩
    cases e
    simp only at h1 h2
    subst h1; subst h2; exact he
  · intro h
    exact ⟨(p, n), ⟨h, rfl⟩, rfl⟩

lemma mem_get_ready_steps {g : PlanGraph} {st : StatusMap} {n : String} :
    n ∈ get_ready_steps g st ↔
      n ∈ g.nodes ∧ n ≠ "ROOT" ∧ statusOf st n ≠ .completed ∧
      statusOf st n ≠ .failed ∧ statusOf st n ≠ .running ∧
      ∀ p ∈ predecessors g n, statusOf st p = .completed := by
  unfold get_ready_steps
  rw [List.mem_filter]
  simp only [Bool.and_eq_true, Bool.not_eq_true', beq_eq_false_iff_ne,
    statusBlocked_eq_false, List.all_eq_true, beq_iff_eq]
  tauto

/-- C1: `get_ready_steps` returns exactly the nodes of the graph, other than
the synthetic root, whose status is neither completed nor failed nor running
and all of whose predecessors are completed; a node with no predecessors
satisfies the predecessor condition vacuously, so it is returned as soon as
it is unstarted.  No false positives and no false negatives, for every
status snapshot. -/
theorem c1_ready_nodes_exact (g : PlanGraph) (st : StatusMap) (n : String) :
    n ∈ get_ready_steps g st ↔
      n ∈ g.nodes ∧ n ≠ "ROOT" ∧ statusOf st n ≠ .completed ∧
      statusOf st n ≠ .failed ∧ statusOf st n ≠ .running ∧
      ∀ p ∈ predecessors g n, statusOf st p = .completed :=
  mem_get_ready_steps

/-- C10: `get_inputs` returns exactly the requested read keys that are
present in `globals_schema`, bound to their stored values; a requested key
absent from the store is silently omitted — looking it up in the result
yields `none`, no error and no default binding. -/
theorem c10_get_inputs_exact (gs : Store) (reads : List String) (k : String) :
    stLookup (get_inputs gs reads) k =
      if k ∈ reads then stLookup gs k else none := by
  induction reads with
  | nil => simp [get_inputs, stLookup]
  | cons r rest ih =>
    by_cases hk : k = r
    · subst hk
      cases h : stLookup gs k with
      | none =>
        simp only [get_inputs, h, ih]
        by_cases hm : k ∈ rest <;> simp [hm, h]
      | some v =>
        simp [get_inputs, h, stLookup]
    · cases h : stLookup gs r with
      | none =>
        simp only [get_inputs, h, ih]
        simp [List.mem_cons, hk]
      | some v =>
        have hrk : (r == k) = false :=
          beq_eq_false_iff_ne.mpr (fun hh => hk hh.symm)
        simp only [get_inputs, h, stLookup, ih, hrk]
        simp [List.mem_cons, hk]

lemma run_iterations_count_le (worker : Nat → J → J → AgentResult) :
    ∀ (fuel cur : Nat) (out instr ctx : J) (count : Nat),
      (run_iterations worker cur fuel out instr ctx count).2 ≤ count + fuel := by
  intro fuel
  induction fuel with
  | zero =>
    intro cur out instr ctx count
    simp [run_iterations]
  | succ f ih =>
    intro cur out instr ctx count
    simp only [run_iterations]
    repeat' split
    all_goals try exact le_trans (ih _ _ _ _ _) (by omega)
    all_goals show count + 1 ≤ count + (f + 1)
    all_goals omega

/-- A worker whose every output is a dict requesting continuation
(`call_self: true`), tagged with the iteration number that produced it. -/
def always_continue_worker : Nat → J → J → AgentResult :=
  fun i _ _ =>
    ⟨true, .dict (.cons "call_self" (.bool true)
                   (.cons "iteration" (.num i) .nil))⟩

/-- C3: the self-iteration loop of `_execute_step` performs at most
`max_iterations` worker invocations, for every worker; and with a bound of
3 and a worker that always requests continuation, exactly 3 invocations
occur, the loop's final output is the 3rd invocation's output, and the
result still reports success (hitting the bound is logged, not an error). -/
theorem c3_iteration_bound :
    (∀ (worker : Nat → J → J → AgentResult) (m : Nat),
        (execute_step worker m).2 ≤ m) ∧
    (execute_step always_continue_worker 3).2 = 3 ∧
    (execute_step always_continue_worker 3).1.output =
      .dict (.cons "call_self" (.bool true)
               (.cons "iteration" (.num 3) .nil)) ∧
    (execute_step always_continue_worker 3).1.success = true := by
  refine ⟨fun worker m => ?_, rfl, rfl, rfl⟩
  have h := run_iterations_count_le worker m 1 J.null J.null J.null 0
  simpa [execute_step] using h

/-- A worker whose very first invocation fails (`run_agent` returning
`{"success": False, ...}`). -/
def failing_worker : Nat → J → J → AgentResult := fun _ _ _ => ⟨false, J.null⟩

/-- C2 (code bug): when the first worker invocation fails, `_execute_step`
breaks out of its loop but still returns `{"success": True, "output": None}`
— one invocation, success flag true.  The driver therefore takes the
success branch and calls `mark_done`, which marks the node `completed`
(with its declared writes bound to `[]` by the last-resort fallback), and
the node's dependents then become ready.  The claim (and the driver's own
`mark_failed` branch for failure results, which this return value makes
unreachable) say the node should instead end `failed` with its dependents
never ready. -/
theorem c2_worker_failure_swallowed :
    execute_step failing_worker 20 = ({ success := true, output := J.null }, 1) ∧
    mark_done (.error ()) (fun o => (J.null, o)) (fun _ => none)
        "CoderAgent" "T1" J.null ["x"] [] =
      .ok ([("x", J.list .nil)], .completed) ∧
    "B" ∈ get_ready_steps (init_plan_graph ⟨["A", "B"], [("A", "B")]⟩)
        (setStatus (setStatus initStatus "A" .running) "A" .completed) := by
  refine ⟨rfl, rfl, ?_⟩
  decide

/-!
### End-to-end scenario B (claim C5)

Node `C`, `writes = [z]`, worker output
`{execution_result: {status: "success", result: {z: 42}}}`.
-/

/-- The nested `{status: "success", result: {z: 42}}` wrapper. -/
def c5_wrapper : J :=
  .dict (.cons "status" (.str "success")
    (.cons "result" (.dict (.cons "z" (.num 42) .nil)) .nil))

/-- The worker output of scenario B. -/
def c5_output : J := .dict (.cons "execution_result" c5_wrapper .nil)

/-- C5 counterexample: on scenario B's output the extraction does **not**
bind `z = 42` via strategy 1.  The output carries no executable-code
markers, so `mark_done` never produces a local execution result and
strategy 1 is vacuous (`stage12` of a `None` execution result yields
nothing); strategies 2-4 miss as well, and the last-resort output fallback
binds `z` to the entire `{status, result}` wrapper dict — not to `42`. -/
theorem c5_counterexample :
    mark_done (.error ()) (fun o => (J.null, o)) (fun _ => none)
        "CoderAgent" "C" c5_output ["z"] [] =
      .ok ([("z", c5_wrapper)], .completed) ∧
    stage12 (fun _ => none) J.null "z" = .ok none ∧
    c5_wrapper ≠ J.num 42 :=
  ⟨rfl, rfl, fun h => J.noConfusion h⟩

/-- C5 amended: on scenario B's output, which carries no executable code,
every extraction strategy misses — strategy 1/2 because there is no local
execution result, strategy 3 because its `elif` arm looks for `z` only
among the immediate keys of the output's `execution_result` field (and its
deep-search `else` arm is thereby skipped), strategy 4 because the agent is
not the FormatterAgent — and the last-resort output fallback binds `z` to
the whole wrapper dict; the step still completes. -/
theorem c5_last_resort_binds_wrapper :
    has_executable_code c5_output = false ∧
    stage3 c5_output "z" = none ∧
    stage4 "CoderAgent" "C" c5_output "z" = .ok none ∧
    stage5er J.null = .ok none ∧
    stage5out c5_output = some c5_wrapper ∧
    extractKey (fun _ => none) "CoderAgent" "C" J.null c5_output "z" =
      .ok c5_wrapper :=
  ⟨rfl, rfl, rfl, rfl, rfl, rfl⟩

/-!
### The last-resort fallback (claim C6)
-/

/-- An execution result whose `result` holds only an *empty* value. -/
def c6_exec_result : J :=
  .dict (.cons "status" (.str "success")
    (.cons "result" (.dict (.cons "a" (.list .nil) .nil)) .nil))

/-- A raw output holding a non-empty value `7`. -/
def c6_output : J := .dict (.cons "b" (.num 7) .nil)

/-- C6 counterexample: with an execution result whose `result` dict holds
only the empty list and a raw output whose first value is the non-empty
`7`, the last-resort fallback binds the write key to the *empty list* (the
first key's value of the execution result, regardless of emptiness) — not
to the first non-empty value found in the execution result (there is none
below top level) nor to the raw output's non-empty `7`. -/
theorem c6_counterexample :
    extractKey (fun _ => none) "CoderAgent" "T1" c6_exec_result c6_output "z" =
      .ok (.list .nil) ∧
    stage5out c6_output = some (.num 7) ∧
    truthy (.num 7) = true :=
  ⟨rfl, rfl, rfl⟩

lemma firstTruthy_eq_some :
    ∀ (od : JDict) (v : J), firstTruthy od = some v →
      ∃ l1 k l2, od.toList = l1 ++ (k, v) :: l2 ∧ truthy v = true ∧
        ∀ q ∈ l1, truthy q.2 = false
  | .nil, v, h => by simp [firstTruthy] at h
  | .cons k w rest, v, h => by
    by_cases hw : truthy w = true
    · refine ⟨[], k, rest.toList, ?_, ?_, by simp⟩
      · simp only [firstTruthy, hw, if_true, Option.some.injEq] at h
        simp [JDict.toList, h]
      · simp only [firstTruthy, hw, if_true, Option.some.injEq] at h
        rw [← h]; exact hw
    · have hw' : truthy w = false := by
        cases hww : truthy w
        · rfl
        · exact absurd hww hw
      simp only [firstTruthy, hw', if_false] at h
      obtain ⟨l1, k1, l2, hl, hv, hall⟩ := firstTruthy_eq_some rest v h
      refine ⟨(k, w) :: l1, k1, l2, ?_, hv, ?_⟩
      · simp [JDict.toList, hl]
      · intro q hq
        rcases List.mem_cons.1 hq with hq1 | hq2
        · rw [hq1]; exact hw'
        · exact hall q hq2

lemma firstTruthy_eq_none :
    ∀ (od : JDict), firstTruthy od = none →
      ∀ q ∈ od.toList, truthy q.2 = false
  | .nil, _, q, hq => by simp [JDict.toList] at hq
  | .cons k w rest, h, q, hq => by
    by_cases hw : truthy w = true
    · simp [firstTruthy, hw] at h
    · have hw' : truthy w = false := by
        cases hww : truthy w
        · rfl
        · exact absurd hww hw
      simp only [firstTruthy, hw', if_false] at h
      rcases List.mem_cons.1 hq with hq1 | hq2
      · rw [hq1]; exact hw'
      · exact firstTruthy_eq_none rest h q hq2

lemma jdLookup_ne_nil {erd : JDict} {key : String} {v : J}
    (h : jdLookup erd key = some v) : truthy (.dict erd) = true := by
  cases erd with
  | nil => simp [jdLookup] at h
  | cons k w rest => rfl

lemma mark_done_completed {interact : Except Unit String}
    {codeStage : J → J × J} {jl : String → Option J} {ag sid : String}
    {output : J} {writes : List String} {gs : Store}
    {r : Store × Status}
    (h : mark_done interact codeStage jl ag sid output writes gs = .ok r) :
    r.2 = .completed := by
  simp only [mark_done] at h
  split at h
  · exact Except.noConfusion h
  · injection h with h2
    rw [← h2]

/-- C6 corrected: for a write key missed by strategies 1-4, the last-resort
fallback binds (a) the value of the *first key* of the execution result's
top-level `result` mapping whenever that mapping is present and non-empty —
regardless of whether that value is empty — else (b) the first truthy
top-level value of the raw output, else (c) the empty list (with a logged
warning).  An extraction miss is never fatal: whenever `mark_done` returns,
the step's status is `completed`. -/
theorem c6_last_resort_behaviour (jl : String → Option J) (ag sid : String)
    (er output : J) (wk : String)
    (h12 : stage12 jl er wk = .ok none)
    (h3 : stage3 output wk = none)
    (h4 : stage4 ag sid output wk = .ok none) :
    (∀ erd k v rest, er = .dict erd →
        jdLookup erd "result" = some (.dict (.cons k v rest)) → k ≠ "" →
        extractKey jl ag sid er output wk = .ok (toStd v)) ∧
    (stage5er er = .ok none →
      ∀ od, output = .dict od →
        ((∃ l1 k2 l2 v2, od.toList = l1 ++ (k2, v2) :: l2 ∧ truthy v2 = true ∧
            (∀ q ∈ l1, truthy q.2 = false) ∧
            extractKey jl ag sid er output wk = .ok v2) ∨
         ((∀ q ∈ od.toList, truthy q.2 = false) ∧
            extractKey jl ag sid er output wk = .ok (.list .nil)))) ∧
    (stage5er er = .ok none → truthy output = false →
        extractKey jl ag sid er output wk = .ok (.list .nil)) ∧
    (∀ (interact : Except Unit String) (codeStage : J → J × J)
        (writes : List String) (gs : Store) (r : Store × Status),
        mark_done interact codeStage jl ag sid output writes gs = .ok r →
        r.2 = .completed) := by
  refine ⟨?_, ?_, ?_, fun _ _ _ _ _ h => mark_done_completed h⟩
  · intro erd k v rest her hres hk
    subst her
    have hkf : (k == "") = false := beq_eq_false_iff_ne.mpr hk
    cases erd with
    | nil => simp [jdLookup] at hres
    | cons a b c =>
      have h5 : stage5er (.dict (.cons a b c)) = .ok (some (toStd v)) := by
        simp [stage5er, jdGetD, hres, hkf, truthy]
      simp only [extractKey, h12, h3, h4, h5]
  · intro h5er od hout
    subst hout
    cases hft : firstTruthy od with
    | some v2 =>
      left
      obtain ⟨l1, k2, l2, hl, hv, hall⟩ := firstTruthy_eq_some od v2 hft
      have htr : truthy (.dict od) = true := by
        cases od with
        | nil => simp [firstTruthy] at hft
        | cons a b c => rfl
      have h5o : stage5out (.dict od) = some v2 := by
        simp [stage5out, htr, hft]
      refine ⟨l1, k2, l2, v2, hl, hv, hall, ?_⟩
      simp only [extractKey, h12, h3, h4, h5er, h5o]
    | none =>
      right
      have h5o : stage5out (.dict od) = none := by
        simp [stage5out, hft]
      refine ⟨firstTruthy_eq_none od hft, ?_⟩
      simp only [extractKey, h12, h3, h4, h5er, h5o]
  · intro h5er htr
    have h5o : stage5out output = none := by
      simp [stage5out, htr]
    simp only [extractKey, h12, h3, h4, h5er, h5o]

/-- Witness for C6: applying the corrected last-resort behaviour at the
concrete counterexample inputs — the execution result's first key holds the
empty list, and that empty list is what gets bound. -/
theorem c6_last_resort_behaviour_witness :
    stage12 (fun _ => none) c6_exec_result "z" = .ok none ∧
    extractKey (fun _ => none) "CoderAgent" "T1" c6_exec_result c6_output "z" =
      .ok (J.list .nil) := by
  refine ⟨rfl, ?_⟩
  have h := (c6_last_resort_behaviour (fun _ => none) "CoderAgent" "T1"
      c6_exec_result c6_output "z" rfl rfl rfl).1
      (.cons "status" (.str "success")
        (.cons "result" (.dict (.cons "a" (.list .nil) .nil)) .nil))
      "a" (.list .nil) .nil rfl rfl (by decide)
  exact h

/-- C9: extraction is deterministic and idempotent.  For a fixed
`(output, executionResult, writeKey)` triple (and fixed external JSON
parser), the value stored for the key is independent of the prior contents
of the variable store, and re-running the extraction on the same triple
stores the same value again. -/
theorem c9_extraction_deterministic_idempotent
    (jl : String → Option J) (ag sid : String) (er output : J) (wk : String)
    (gs1 gs2 r1 r2 : Store)
    (h1 : extract_and_store jl ag sid er output wk gs1 = .ok r1)
    (h2 : extract_and_store jl ag sid er output wk gs2 = .ok r2) :
    stLookup r1 wk = stLookup r2 wk ∧
    (∀ r3, extract_and_store jl ag sid er output wk r1 = .ok r3 →
        stLookup r3 wk = stLookup r1 wk) := by
  unfold extract_and_store at h1 h2
  cases hk : extractKey jl ag sid er output wk with
  | error e =>
    rw [hk] at h1
    exact Except.noConfusion h1
  | ok v =>
    rw [hk] at h1 h2
    injection h1 with h1'
    injection h2 with h2'
    subst h1'
    subst h2'
    constructor
    · simp [setVar, stLookup]
    · intro r3 h3
      unfold extract_and_store at h3
      rw [hk] at h3
      injection h3 with h3'
      subst h3'
      simp [setVar, stLookup]

/-- Witness for C9 at a concrete triple: the same value `5` is stored for
`z` from two different prior stores, and re-extraction stores it again. -/
theorem c9_extraction_deterministic_idempotent_witness :
    extract_and_store (fun _ => none) "CoderAgent" "T1" J.null
        (.dict (.cons "z" (.num 5) .nil)) "z" [] = .ok [("z", J.num 5)] ∧
    stLookup [("z", J.num 5)] "z" =
      stLookup [("z", J.num 5), ("q", J.num 1)] "z" ∧
    stLookup [("z", J.num 5), ("z", J.num 5)] "z" =
      stLookup [("z", J.num 5)] "z" := by
  have h := c9_extraction_deterministic_idempotent (fun _ => none)
    "CoderAgent" "T1" J.null (.dict (.cons "z" (.num 5) .nil)) "z"
    [] [("q", J.num 1)] [("z", J.num 5)] [("z", J.num 5), ("q", J.num 1)]
    rfl rfl
  exact ⟨rfl, h.1, h.2 [("z", J.num 5), ("z", J.num 5)] rfl⟩

/-!
### User-interaction failure (claim C8)
-/

def c8_output : J :=
  .dict (.cons "clarificationMessage" (.str "Which format?") .nil)

/-- C8 counterexample: a clarification step whose interaction collaborator
raises does **not** fail — `mark_done` catches the exception, logs it, and
still completes the step (`status = completed`, an `ok` result, not a
failure). -/
theorem c8_counterexample :
    is_clarification_request "ClarificationAgent" c8_output = true ∧
    mark_done (.error ()) (fun o => (J.null, o)) (fun _ => none)
        "ClarificationAgent" "T1" c8_output [] [] =
      .ok ([], .completed) :=
  ⟨rfl, rfl⟩

/-- C8 amended: when the interaction collaborator is unavailable (the
interaction attempt raises), the exception is caught inside `mark_done`'s
`try`/`except`: no response is bound into the store, the output is left
unannotated, and the step still runs to completion with
`status = completed` — it is *not* treated as a worker-invocation failure.
-/
theorem c8_interaction_failure_swallowed (ag sid : String) (output : J)
    (gs : Store) (h : is_clarification_request ag output = true) :
    handle_clarification (.error ()) ag gs output = (gs, output) ∧
    (∀ (codeStage : J → J × J) (jl : String → Option J)
        (writes : List String) (r : Store × Status),
        mark_done (.error ()) codeStage jl ag sid output writes gs = .ok r →
        r.2 = .completed) := by
  refine ⟨?_, fun _ _ _ _ h2 => mark_done_completed h2⟩
  simp [handle_clarification, h]

/-- Witness for C8: the concrete clarification output with a raising
interaction collaborator — store and output pass through unchanged. -/
theorem c8_interaction_failure_swallowed_witness :
    handle_clarification (.error ()) "ClarificationAgent" [] c8_output =
      ([], c8_output) :=
  (c8_interaction_failure_swallowed "ClarificationAgent" "T1" c8_output []
    rfl).1

/-!
### Scheduler invariants (claims C4 and C7)
-/

lemma statusOf_set (st : StatusMap) (n : String) (s : Status) (m : String) :
    statusOf (setStatus st n s) m = if m = n then s else statusOf st m := by
  by_cases h : m = n
  · subst h; simp [setStatus, statusOf]
  · have hb : (n == m) = false :=
      beq_eq_false_iff_ne.mpr (fun hh => h hh.symm)
    simp [setStatus, statusOf, hb, h]

lemma reaches_last {g : PlanGraph} {f d : String} (h : Reaches g f d) :
    ∃ p, (p, d) ∈ g.edges ∧ (p = f ∨ Reaches g f p) := by
  unfold Reaches at h
  cases h with
  | single h1 => exact ⟨f, h1, Or.inl rfl⟩
  | tail h1 h2 => exact ⟨_, h2, Or.inr h1⟩

/-- Invariant: every strict descendant of a non-completed node is pending.
This is the status-level safety property the ready-set computation
maintains. -/
def DescPending (g : PlanGraph) (st : StatusMap) : Prop :=
  ∀ f d, Reaches g f d → statusOf st f ≠ .completed → statusOf st d = .pending

lemma ready_ancestors_completed {g : PlanGraph} {st : StatusMap} {n : String}
    (hInv : DescPending g st) (hn : n ∈ get_ready_steps g st) {f : String}
    (hfd : Reaches g f n) : statusOf st f = .completed := by
  obtain ⟨-, -, -, -, -, hpred⟩ := mem_get_ready_steps.1 hn
  by_contra hf
  obtain ⟨p, hedge, hp⟩ := reaches_last hfd
  have hpc : statusOf st p = .completed := hpred p (mem_predecessors.2 hedge)
  rcases hp with rfl | hreach
  · exact hf hpc
  · have hpend := hInv f p hreach hf
    rw [hpend] at hpc
    exact Status.noConfusion hpc

lemma sched_preserves_desc {g : PlanGraph} {st st2 : StatusMap}
    (hs : SchedStep g st st2) (hInv : DescPending g st) :
    DescPending g st2 := by
  cases hs with
  | runStep n hn =>
    intro f d hfd hf
    rw [statusOf_set] at hf ⊢
    by_cases hdn : d = n
    · rw [if_pos hdn]
      exfalso
      have hc := ready_ancestors_completed hInv hn (hdn ▸ hfd)
      by_cases hfn : f = n
      · exact (mem_get_ready_steps.1 hn).2.2.1 (hfn ▸ hc)
      · rw [if_neg hfn] at hf
        exact hf hc
    · rw [if_neg hdn]
      by_cases hfn : f = n
      · exact hInv n d (hfn ▸ hfd) (mem_get_ready_steps.1 hn).2.2.1
      · rw [if_neg hfn] at hf
        exact hInv f d hfd hf
  | doneStep n hr =>
    intro f d hfd hf
    rw [statusOf_set] at hf ⊢
    by_cases hfn : f = n
    · rw [if_pos hfn] at hf
      exact absurd rfl hf
    · rw [if_neg hfn] at hf
      by_cases hdn : d = n
      · rw [if_pos hdn]
        exfalso
        have hpend := hInv f n (hdn ▸ hfd) hf
        rw [hpend] at hr
        exact Status.noConfusion hr
      · rw [if_neg hdn]
        exact hInv f d hfd hf
  | failStep n hr =>
    intro f d hfd hf
    rw [statusOf_set] at hf ⊢
    have hnnc : statusOf st n ≠ .completed := by
      rw [hr]; exact fun hh => Status.noConfusion hh
    by_cases hdn : d = n
    · rw [if_pos hdn]
      exfalso
      by_cases hfn : f = n
      · have h1 : Reaches g f n := hdn ▸ hfd
        have h2 : Reaches g n n := hfn ▸ h1
        have hpend := hInv n n h2 hnnc
        rw [hpend] at hr
        exact Status.noConfusion hr
      · rw [if_neg hfn] at hf
        have hpend := hInv f n (hdn ▸ hfd) hf
        rw [hpend] at hr
        exact Status.noConfusion hr
    · rw [if_neg hdn]
      by_cases hfn : f = n
      · exact hInv n d (hfn ▸ hfd) hnnc
      · rw [if_neg hfn] at hf
        exact hInv f d hfd hf

lemma init_desc {g : PlanGraph} (hroot : ∀ e ∈ g.edges, e.2 ≠ "ROOT") :
    DescPending g initStatus := by
  intro f d hfd _
  obtain ⟨p, hedge, -⟩ := reaches_last hfd
  have hd : d ≠ "ROOT" := hroot (p, d) hedge
  have hb : ("ROOT" == d) = false :=
    beq_eq_false_iff_ne.mpr (fun hh => hd hh.symm)
  simp [initStatus, statusOf, hb]

lemma reachable_desc {g : PlanGraph} {st : StatusMap}
    (hroot : ∀ e ∈ g.edges, e.2 ≠ "ROOT")
    (h : Relation.ReflTransGen (SchedStep g) initStatus st) :
    DescPending g st := by
  induction h with
  | refl => exact init_desc hroot
  | tail _ h2 ih => exact sched_preserves_desc h2 ih

lemma sched_failed_stable {g : PlanGraph} {st st2 : StatusMap} {n : String}
    (hs : SchedStep g st st2) (h : statusOf st n = .failed) :
    statusOf st2 n = .failed := by
  cases hs with
  | runStep m hm =>
    rw [statusOf_set]
    by_cases hnm : n = m
    · exact absurd (hnm ▸ h) (mem_get_ready_steps.1 hm).2.2.2.1
    · rw [if_neg hnm]; exact h
  | doneStep m hr =>
    rw [statusOf_set]
    by_cases hnm : n = m
    · exfalso
      have h2 : statusOf st m = Status.failed := hnm ▸ h
      rw [h2] at hr
      exact Status.noConfusion hr
    · rw [if_neg hnm]; exact h
  | failStep m hr =>
    rw [statusOf_set]
    by_cases hnm : n = m
    · rw [if_pos hnm]
    · rw [if_neg hnm]; exact h

lemma rtg_failed_stable {g : PlanGraph} {st st2 : StatusMap} {n : String}
    (hs : Relation.ReflTransGen (SchedStep g) st st2)
    (h : statusOf st n = .failed) : statusOf st2 n = .failed := by
  induction hs with
  | refl => exact h
  | tail _ h2 ih => exact sched_failed_stable h2 ih

lemma mem_addNodeOnce_left {ns : List String} {m : String} (n : String)
    (h : m ∈ ns) : m ∈ addNodeOnce ns n := by
  unfold addNodeOnce
  split
  · exact h
  · exact List.mem_append_left _ h

lemma mem_addNodeOnce_self (ns : List String) (n : String) :
    n ∈ addNodeOnce ns n := by
  unfold addNodeOnce
  split
  · assumption
  · exact List.mem_append_right _ (List.mem_singleton.2 rfl)

lemma foldl_addNodeOnce_pres :
    ∀ (es : List (String × String)) (acc : List String) (m : String),
      m ∈ acc →
      m ∈ es.foldl (fun a ed => addNodeOnce (addNodeOnce a ed.1) ed.2) acc := by
  intro es
  induction es with
  | nil => intro acc m h; exact h
  | cons hd tl ih =>
    intro acc m h
    exact ih _ m (mem_addNodeOnce_left _ (mem_addNodeOnce_left _ h))

/-- Every edge of the plan ends up with both endpoints among the nodes of
the constructed graph — NetworkX `add_edge` silently creates missing
endpoints; nothing is rejected. -/
lemma edge_endpoints_mem (p : Plan) :
    ∀ e ∈ p.edges,
      e.1 ∈ (init_plan_graph p).nodes ∧ e.2 ∈ (init_plan_graph p).nodes := by
  show ∀ e ∈ p.edges,
      e.1 ∈ p.edges.foldl (fun a ed => addNodeOnce (addNodeOnce a ed.1) ed.2)
        (p.nodes.foldl addNodeOnce ["ROOT"]) ∧
      e.2 ∈ p.edges.foldl (fun a ed => addNodeOnce (addNodeOnce a ed.1) ed.2)
        (p.nodes.foldl addNodeOnce ["ROOT"])
  generalize p.nodes.foldl addNodeOnce ["ROOT"] = acc0
  induction p.edges generalizing acc0 with
  | nil => intro e he; simp at he
  | cons hd tl ih =>
    intro e he
    rcases List.mem_cons.1 he with rfl | h2
    · constructor
      · exact foldl_addNodeOnce_pres tl _ _
          (mem_addNodeOnce_left _ (mem_addNodeOnce_self _ _))
      · exact foldl_addNodeOnce_pres tl _ _ (mem_addNodeOnce_self _ _)
    · exact ih _ e h2

lemma all_done_false_of_pending {g : PlanGraph} {st : StatusMap} {d : String}
    (hd : d ∈ g.nodes) (hp : statusOf st d = .pending) :
    all_done g st = false := by
  unfold all_done
  cases h : g.nodes.all (fun n =>
      match statusOf st n with
      | .completed => true
      | .failed => true
      | _ => false) with
  | false => rfl
  | true =>
    exfalso
    have h2 := List.all_eq_true.1 h d hd
    rw [hp] at h2
    exact Bool.noConfusion h2

/-- C4: in every execution of the scheduling protocol over a well-formed
plan, once a node's status is `failed` it stays `failed` through every
subsequent transition; every (direct or transitive) dependent of the failed
node is `pending` in every subsequent state, never appears in any
`get_ready_steps` result, and while such a dependent exists `all_done` is
false — the run can never report all-tasks-completed (it ends stalled with
failures instead of DONE). -/
theorem c4_failed_is_terminal (p : Plan) (hwf : WellFormedPlan p)
    {st st2 : StatusMap} {f d : String}
    (h0 : ReachableState (init_plan_graph p) st)
    (hf : statusOf st f = .failed)
    (hs : Relation.ReflTransGen (SchedStep (init_plan_graph p)) st st2)
    (hfd : Reaches (init_plan_graph p) f d) :
    statusOf st2 f = .failed ∧ statusOf st2 d = .pending ∧
    d ∉ get_ready_steps (init_plan_graph p) st2 ∧
    all_done (init_plan_graph p) st2 = false := by
  have hroot : ∀ e ∈ (init_plan_graph p).edges, e.2 ≠ "ROOT" := by
    intro e he hh
    have h2 := (hwf.1 e he).2
    rw [hh] at h2
    exact hwf.2 h2
  have h02 : ReachableState (init_plan_graph p) st2 :=
    Relation.ReflTransGen.trans h0 hs
  have hInv : DescPending (init_plan_graph p) st2 := reachable_desc hroot h02
  have hf2 : statusOf st2 f = .failed := rtg_failed_stable hs hf
  have hfnc : statusOf st2 f ≠ .completed := by
    rw [hf2]; exact fun hh => Status.noConfusion hh
  have hdp : statusOf st2 d = .pending := hInv f d hfd hfnc
  refine ⟨hf2, hdp, ?_, ?_⟩
  · intro hmem
    have hc := ready_ancestors_completed hInv hmem hfd
    rw [hf2] at hc
    exact Status.noConfusion hc
  · obtain ⟨q, hedge, -⟩ := reaches_last hfd
    exact all_done_false_of_pending (edge_endpoints_mem p (q, d) hedge).2 hdp

def c4_plan : Plan := ⟨["A", "B"], [("A", "B")]⟩

def c4_st : StatusMap := setStatus (setStatus initStatus "A" .running) "A" .failed

/-- Witness for C4: the two-node plan `A → B` after the legal trace
`mark_running A; mark_failed A` — `B` is pending, not ready, and the run is
not done. -/
theorem c4_failed_is_terminal_witness :
    statusOf c4_st "A" = .failed ∧ statusOf c4_st "B" = .pending ∧
    "B" ∉ get_ready_steps (init_plan_graph c4_plan) c4_st ∧
    all_done (init_plan_graph c4_plan) c4_st = false := by
  have s1 : SchedStep (init_plan_graph c4_plan) initStatus
      (setStatus initStatus "A" .running) :=
    SchedStep.runStep initStatus "A" (by decide)
  have s2 : SchedStep (init_plan_graph c4_plan)
      (setStatus initStatus "A" .running) c4_st :=
    SchedStep.failStep (setStatus initStatus "A" .running) "A" (by decide)
  have h0 : ReachableState (init_plan_graph c4_plan) c4_st :=
    Relation.ReflTransGen.tail (Relation.ReflTransGen.tail .refl s1) s2
  have hAB : ("A", "B") ∈ (init_plan_graph c4_plan).edges := by decide
  have hfd : Reaches (init_plan_graph c4_plan) "A" "B" :=
    Relation.TransGen.single hAB
  have hfA : statusOf c4_st "A" = Status.failed := by decide
  have h := @c4_failed_is_terminal c4_plan ⟨by decide, by decide⟩
    c4_st c4_st "A" "B" h0 hfA Relation.ReflTransGen.refl hfd
  exact ⟨h.1, h.2.1, h.2.2.1, h.2.2.2⟩

/-!
### Malformed-plan handling at construction (claim C7)
-/

/-- A plan with an edge to the undeclared node `B`. -/
def c7_unknown_plan : Plan := ⟨["A"], [("A", "B")]⟩

/-- A plan whose two nodes form a cycle. -/
def c7_cyclic_plan : Plan := ⟨["A", "B"], [("A", "B"), ("B", "A")]⟩

/-- C7 counterexample: construction does **not** detect malformed plans and
never fails.  An edge to the unknown id `B` silently creates `B` as an
attribute-less node — and once `A` completes, `B` even enters the ready set,
so the malformation surfaces during execution, not at construction.  A
cyclic plan constructs equally silently, both cycle edges installed, and
its nodes are simply never ready (an empty ready set at the initial state):
a runtime stall, not a construction-time error. -/
theorem c7_counterexample :
    (init_plan_graph c7_unknown_plan).nodes = ["ROOT", "A", "B"] ∧
    "B" ∈ get_ready_steps (init_plan_graph c7_unknown_plan)
        (setStatus (setStatus initStatus "A" .running) "A" .completed) ∧
    (init_plan_graph c7_cyclic_plan).edges = [("A", "B"), ("B", "A")] ∧
    get_ready_steps (init_plan_graph c7_cyclic_plan) initStatus = [] := by
  exact ⟨rfl, by decide, rfl, rfl⟩

/-- C7 amended: `__init__` performs no validation — every plan constructs,
with every edge installed and its endpoints (declared or not) present as
nodes; and a node lying on a cycle (not through the synthetic root) is
never returned by `get_ready_steps` in any reachable scheduler state, so a
cyclic plan stalls at runtime instead of failing at construction. -/
theorem c7_no_construction_validation (p : Plan) {st : StatusMap} {n : String}
    (hroot : ∀ e ∈ p.edges, e.1 ≠ "ROOT" ∧ e.2 ≠ "ROOT")
    (hst : ReachableState (init_plan_graph p) st)
    (hcyc : Reaches (init_plan_graph p) n n) :
    (∀ e ∈ p.edges,
        e.1 ∈ (init_plan_graph p).nodes ∧ e.2 ∈ (init_plan_graph p).nodes) ∧
    n ∉ get_ready_steps (init_plan_graph p) st := by
  refine ⟨edge_endpoints_mem p, ?_⟩
  intro hmem
  have hroot2 : ∀ e ∈ (init_plan_graph p).edges, e.2 ≠ "ROOT" :=
    fun e he => (hroot e he).2
  have hInv := reachable_desc hroot2 hst
  have hc := ready_ancestors_completed hInv hmem hcyc
  exact (mem_get_ready_steps.1 hmem).2.2.1 hc

/-- Witness for C7: the concrete cyclic plan — node `A` sits on the cycle
`A → B → A` and is not ready at the initial state. -/
theorem c7_no_construction_validation_witness :
    "A" ∉ get_ready_steps (init_plan_graph c7_cyclic_plan) initStatus := by
  have hAB : ("A", "B") ∈ (init_plan_graph c7_cyclic_plan).edges := by decide
  have hBA : ("B", "A") ∈ (init_plan_graph c7_cyclic_plan).edges := by decide
  have s1 : Reaches (init_plan_graph c7_cyclic_plan) "A" "B" :=
    Relation.TransGen.single hAB
  have hcyc : Reaches (init_plan_graph c7_cyclic_plan) "A" "A" :=
    Relation.TransGen.tail s1 hBA
  have h := @c7_no_construction_validation c7_cyclic_plan initStatus "A"
    (by decide) Relation.ReflTransGen.refl hcyc
  exact h.2
